import Mathlib

set_option autoImplicit false

/-
Verification of the SQL-to-version-control bridge of the dolt repository:
a shallow embedding of go/libraries/doltcore/sqle/database.go and
go/libraries/doltcore/sqle/dtables/commit_diff_table.go, with helper
predicates of the doltdb package (which is outside the verified sources)
modelled from the specification where they are needed.
-/

namespace Dolt

/-- Table names, fragment texts and other Go strings are modelled as lists of
characters, the character sequence of the Go string. -/
abbrev Str := List Char

/-- Embeds strings.ToLower, applied characterwise as it is in Go for the ASCII
identifiers that appear in table names. -/
def lowerStr (s : Str) : Str := s.map Char.toLower

/-- Embeds doltdb.DoltNamespace, the reserved prefix for system tables. -/
def doltNamespace : Str := "dolt_".toList

/-- Embeds doltdb.DocTableName. -/
def docTableName : Str := "dolt_docs".toList

/-- Embeds doltdb.SchemasTableName, the persistent store of schema fragments. -/
def schemasTableName : Str := "dolt_schemas".toList

/-- Modelled from the spec: reserved-name protocol of section 6; the helper
doltdb.HasDoltPrefix is not among the sources under src/. A name is in the
reserved namespace when it begins with the five characters of dolt_. -/
def HasDoltPrefix (name : Str) : Bool := doltNamespace.isPrefixOf name

/-- Modelled from the spec: full-text auxiliary names of section 6; the helper
doltdb.IsFullTextTable is not among the sources under src/. A full-text
auxiliary table is dolt_-prefixed and carries one of the five documented
suffixes. -/
def IsFullTextTable (name : Str) : Bool :=
  HasDoltPrefix name &&
    ("_fts_config".toList.isSuffixOf name ||
     "_fts_position".toList.isSuffixOf name ||
     "_fts_doc_count".toList.isSuffixOf name ||
     "_fts_global_count".toList.isSuffixOf name ||
     "_fts_row_count".toList.isSuffixOf name)

/-- Modelled from the spec: the exact-name reflective catalog of section 4.F;
doltdb.IsReadOnlySystemTable is not among the sources under src/. -/
def readOnlySystemTableNames : List Str :=
  ["dolt_log", "dolt_diff", "dolt_column_diff", "dolt_conflicts",
   "dolt_constraint_violations", "dolt_schema_conflicts", "dolt_branches",
   "dolt_remote_branches", "dolt_remotes", "dolt_commits",
   "dolt_commit_ancestors", "dolt_status", "dolt_merge_status", "dolt_tags",
   "dolt_branch_control", "dolt_branch_namespace_control"].map String.toList

/-- Modelled from the spec: the prefix-dispatched reflective families of
section 4.F. -/
def reflectiveTablePrefixes : List Str :=
  ["dolt_diff_", "dolt_commit_diff_", "dolt_history_", "dolt_conflicts_",
   "dolt_constraint_violations_"].map String.toList

/-- Modelled from the spec: read-only system tables are the reflective tables
of section 4.F, matched by exact lowered name or by reflective prefix. -/
def IsReadOnlySystemTable (name : Str) : Bool :=
  readOnlySystemTableNames.contains (lowerStr name) ||
    reflectiveTablePrefixes.any (fun p => p.isPrefixOf (lowerStr name))

/-- Modelled from the spec: non-alterable system tables reject DROP, RENAME and
ALTER (section 4.E); the set is the read-only reflective tables together with
the schema-fragments table dolt_schemas. -/
def IsNonAlterableSystemTable (name : Str) : Bool :=
  IsReadOnlySystemTable name || lowerStr name == schemasTableName

/-- Modelled from the spec: identifier rules of the SQL ecosystem
(section 4.H name validity); doltdb.IsValidTableName is not among the sources
under src/. -/
def isTableNameChar (c : Char) : Bool :=
  c.isAlphanum || c == '_' || c == '-' || c == '$'

/-- Modelled from the spec: a valid table name is a nonempty identifier that
starts with a letter, underscore or dollar sign. -/
def IsValidTableName (name : Str) : Bool :=
  match name with
  | [] => false
  | c :: _ => (c.isAlpha || c == '_' || c == '$') && name.all isTableNameChar

/-- A column of a dolt schema: the stable tag together with the column name.
Types, defaults and nullability do not influence the verified claims. -/
structure Column where
  tag : Nat
  name : Str
deriving DecidableEq

/-- A table schema: ordered column list, the tags of the primary-key columns,
and the derived predicates used by table creation. -/
structure Sch where
  cols : List Column
  pkTags : List Nat
  hasAutoInc : Bool
  usesSpatialKey : Bool
deriving DecidableEq

/-- A cell of a stored row: text or integer payload. -/
inductive Cell where
  | s (v : Str)
  | i (v : Int)
deriving DecidableEq

/-- A stored row is a tuple of cells. -/
abbrev Row := List Cell

/-- A table snapshot: schema plus row data. -/
structure TableSnap where
  sch : Sch
  rows : List Row
deriving DecidableEq

/-- A root value: the immutable mapping from case-sensitive canonical table
name to table snapshot, stored as an association list in table order. -/
structure RootVal where
  tables : List (Str × TableSnap)
deriving DecidableEq

/-- Embeds RootValue.GetTableNames. -/
def RootVal.tableNames (r : RootVal) : List Str := r.tables.map Prod.fst

/-- Embeds RootValue.HasTable: exact-name membership. -/
def RootVal.hasTable (r : RootVal) (name : Str) : Bool :=
  r.tables.any (fun p => p.1 == name)

/-- Embeds RootValue.GetTable: exact-name lookup. -/
def RootVal.getTable (r : RootVal) (name : Str) : Option TableSnap :=
  (r.tables.find? (fun p => p.1 == name)).map Prod.snd

/-- Embeds RootValue.GetTableInsensitive: the first table whose lowered name
matches the lowered request, returned with its canonical name. -/
def RootVal.getTableInsensitive (r : RootVal) (name : Str) :
    Option (Str × TableSnap) :=
  r.tables.find? (fun p => lowerStr p.1 == lowerStr name)

/-- Embeds RootValue.CreateEmptyTable: appends a fresh empty table. -/
def RootVal.createEmptyTable (r : RootVal) (name : Str) (sch : Sch) : RootVal :=
  ⟨r.tables ++ [(name, TableSnap.mk sch [])]⟩

/-- Embeds RootValue.RemoveTables for a single name. -/
def RootVal.removeTable (r : RootVal) (name : Str) : RootVal :=
  ⟨r.tables.filter (fun p => p.1 != name)⟩

/-- Embeds a write-through of a table snapshot into the root, as performed by
table editors before the new root is installed in the session. -/
def RootVal.putTable (r : RootVal) (name : Str) (t : TableSnap) : RootVal :=
  ⟨r.tables.map (fun p => if p.1 == name then (p.1, t) else p)⟩

/-- Embeds RootValue.GetTableByColTag: the first table owning a column with
the given tag. -/
def RootVal.getTableByColTag (r : RootVal) (tag : Nat) : Option Str :=
  (r.tables.find? (fun p => p.2.sch.cols.any (fun c => c.tag == tag))).map
    Prod.fst

/-- Embeds doltdb.WorkingSet: the handle holding the dirty working root. The
staged root and merge state do not influence the verified claims. -/
structure WorkingSet where
  workingRoot : RootVal
deriving DecidableEq

/-- Embeds the per-database session state: the optional working set (absent
exactly on detached head) and, for detached-head sessions, the root of the
head commit the session reads from. -/
structure DbState where
  workingSet : Option WorkingSet
  headRoot : RootVal
deriving DecidableEq

/-- Embeds dbState.WorkingRoot: the working-set root when attached, the head
root when the session is on a detached head. -/
def DbState.workingRoot (st : DbState) : RootVal :=
  match st.workingSet with
  | some ws => ws.workingRoot
  | none => st.headRoot

/-- Embeds the per-session state visible to the Database facade: the database
state (when the session has one), the temporary-table registry, the
branch-scoped write authorization of the ambient session, and the names known
to the auto-increment tracker. -/
structure Session where
  dbState : Option DbState
  tempTables : List (Str × TableSnap)
  writeAllowed : Bool
  aitNames : List Str
deriving DecidableEq

/-- Embeds dsess.CheckAccessForDb for Permissions_Write: the ambient
branch-scoped authorization of the session. -/
def checkAccess (s : Session) : Bool := s.writeAllowed

/-- Embeds DoltSession.GetTemporaryTable: case-insensitive lookup in the
session registry. -/
def Session.getTemporaryTable (s : Session) (name : Str) : Option TableSnap :=
  (s.tempTables.find? (fun p => lowerStr p.1 == lowerStr name)).map Prod.snd

/-- Embeds DoltSession.AddTemporaryTable. -/
def Session.addTemporaryTable (s : Session) (name : Str) (t : TableSnap) :
    Session :=
  { s with tempTables := (name, t) :: s.tempTables }

/-- Embeds DoltSession.DropTemporaryTable. -/
def Session.dropTemporaryTable (s : Session) (name : Str) : Session :=
  { s with
    tempTables := s.tempTables.filter (fun p => lowerStr p.1 != lowerStr name) }

/-- The error kinds surfaced by the Database facade in database.go. Errors
passed in by callers (existing-fragment and missing-fragment errors) are
carried as values of this type. -/
inductive DbErr where
  | authz
  | noDbState
  | detachedHead
  | invalidTableName (n : Str)
  | reservedTableName (n : Str)
  | systemTableAlter (n : Str)
  | tableNotFound (n : Str)
  | tableAlreadyExists (n : Str)
  | docsSchema
  | tagPrevUsed (conflicts : List (Nat × Str × Str))
  | spatialKey (n : Str)
  | existingView (n : Str)
  | viewNotFound (n : Str)
  | existingTrigger (n : Str)
  | triggerNotFound (n : Str)
  | castPanic
deriving DecidableEq

namespace Database

/-- Embeds Database.GetRoot: the working root of the session state. -/
def GetRoot (s : Session) : Except DbErr RootVal :=
  match s.dbState with
  | none => .error .noDbState
  | some st => .ok st.workingRoot

/-- C8 source: Database.GetWorkingSet. Fails with the detached-head error when
the session state has no working set. -/
def GetWorkingSet (s : Session) : Except DbErr WorkingSet :=
  match s.dbState with
  | none => .error .noDbState
  | some st =>
    match st.workingSet with
    | none => .error .detachedHead
    | some ws => .ok ws

/-- Embeds Database.SetRoot (through the session): installs a new working root
in the working set. -/
def SetRoot (s : Session) (newRoot : RootVal) : Session × Except DbErr Unit :=
  match s.dbState with
  | none => (s, .error .noDbState)
  | some st =>
    match st.workingSet with
    | none => (s, .error .detachedHead)
    | some _ =>
      ({ s with
         dbState := some { workingSet := some ⟨newRoot⟩,
                           headRoot := st.headRoot } },
       .ok ())

end Database

/-- The table values produced by name resolution: a temporary table, one of
the reflective table families, or a user table wrapped read-only, writable or
alterable as in Database.getTable. Construction details of the reflective
tables (joiners, schemas) do not influence the verified claims. -/
inductive SqlTable where
  | temp (name : Str) (t : TableSnap)
  | diffTable (base : Str)
  | commitDiffTable (base : Str)
  | historyTable (base : Str)
  | conflictsTable (base : Str)
  | constViolTable (base : Str)
  | reflective (name : Str)
  | doltTable (name : Str) (t : TableSnap)
  | writableDoltTable (name : Str) (t : TableSnap)
  | alterableDoltTable (name : Str) (t : TableSnap)
deriving DecidableEq

/-- Modelled from the spec: the exact-name synthetic tables of the resolution
switch (section 4.F item 3); the doltdb name constants are not among the
sources under src/. -/
def exactReflectiveNames : List Str :=
  ["dolt_log", "dolt_diff", "dolt_column_diff", "dolt_conflicts",
   "dolt_constraint_violations", "dolt_schema_conflicts", "dolt_branches",
   "dolt_remote_branches", "dolt_remotes", "dolt_commits",
   "dolt_commit_ancestors", "dolt_status", "dolt_merge_status", "dolt_tags",
   "dolt_branch_control", "dolt_branch_namespace_control",
   "dolt_ignore"].map String.toList

namespace Database

/-- Embeds Database.getTable: root lookup of a user-space table by
case-insensitive name, classified read-only, writable or alterable exactly as
in the source. The session derived-table cache is elided: per the spec it is
an optimization, not a source of truth. -/
def getTable (root : RootVal) (tableName : Str) : Option SqlTable :=
  match root.getTableInsensitive tableName with
  | none => none
  | some (exactName, t) =>
    if IsReadOnlySystemTable exactName then some (.doltTable exactName t)
    else if HasDoltPrefix exactName && ! IsFullTextTable exactName then
      some (.writableDoltTable exactName t)
    else some (.alterableDoltTable exactName t)

/-- Embeds Database.getTableInsensitive: the reflective dispatch on lowered
name, prefix families first, then the exact-name synthetic tables, then the
user-table lookup. Head-commit acquisition and the construction internals of
each reflective table are elided. -/
def getTableInsensitiveInner (root : RootVal) (tblName : Str) :
    Except DbErr (Option SqlTable) :=
  if "dolt_diff_".toList.isPrefixOf (lowerStr tblName) then
    .ok (some (.diffTable (tblName.drop "dolt_diff_".toList.length)))
  else if "dolt_commit_diff_".toList.isPrefixOf (lowerStr tblName) then
    match root.getTableInsensitive
        (tblName.drop "dolt_commit_diff_".toList.length) with
    | none => .error (.tableNotFound tblName)
    | some _ =>
      .ok (some (.commitDiffTable (tblName.drop
        "dolt_commit_diff_".toList.length)))
  else if "dolt_history_".toList.isPrefixOf (lowerStr tblName) then
    match getTable root (tblName.drop "dolt_history_".toList.length) with
    | none => .ok none
    | some (.alterableDoltTable _ _) =>
      .ok (some (.historyTable (tblName.drop "dolt_history_".toList.length)))
    | some _ => .error .castPanic
  else if _hconf : "dolt_conflicts_".toList.isPrefixOf (lowerStr tblName) then
    match getTableInsensitiveInner root
        (tblName.drop "dolt_conflicts_".toList.length) with
    | .error e => .error e
    | .ok none => .ok none
    | .ok (some _) =>
      .ok (some (.conflictsTable (tblName.drop
        "dolt_conflicts_".toList.length)))
  else if "dolt_constraint_violations_".toList.isPrefixOf
      (lowerStr tblName) then
    .ok (some (.constViolTable (tblName.drop
      "dolt_constraint_violations_".toList.length)))
  else if exactReflectiveNames.contains (lowerStr tblName) then
    .ok (some (.reflective (lowerStr tblName)))
  else
    .ok (getTable root tblName)
termination_by tblName.length
decreasing_by
  have hp := List.IsPrefix.length_le (List.isPrefixOf_iff_prefix.mp _hconf)
  simp only [lowerStr, List.length_map] at hp
  simp only [List.length_drop]
  simp only [List.length_cons, String.toList] at hp ⊢
  omega

/-- C6 source: Database.GetTableInsensitive. The temporary-table registry is
consulted before the working root is fetched and the reflective dispatch
runs. -/
def GetTableInsensitive (s : Session) (tblName : Str) :
    Except DbErr (Option SqlTable) :=
  match s.getTemporaryTable tblName with
  | some t => .ok (some (.temp tblName t))
  | none =>
    match GetRoot s with
    | .error e => .error e
    | .ok root => getTableInsensitiveInner root tblName

end Database

/-- Modelled from the spec: the canonical schema of the documentation table
(section 4.E: dolt_docs accepts CREATE only when the supplied schema equals
one of two fixed canonical schemas); dtables.DoltDocsSqlSchema is not among
the sources under src/. -/
def doltDocsSchema : Sch :=
  { cols := [⟨0, "doc_name".toList⟩, ⟨1, "doc_text".toList⟩],
    pkTags := [0], hasAutoInc := false, usesSpatialKey := false }

/-- Modelled from the spec: the older canonical schema of the documentation
table. -/
def oldDoltDocsSchema : Sch :=
  { cols := [⟨2, "doc_name".toList⟩, ⟨3, "doc_text".toList⟩],
    pkTags := [2], hasAutoInc := false, usesSpatialKey := false }

/-- Embeds schema.ErrTagPrevUsed applied along GetAllCols().Iter in
createDoltTable: one entry per column of the proposed schema whose tag is
already owned by a table with a different name, in column order, carrying the
tag, the column name and the owning table. -/
def conflictingTags (root : RootVal) (tableName : Str) (sch : Sch) :
    List (Nat × Str × Str) :=
  sch.cols.filterMap (fun col =>
    match root.getTableByColTag col.tag with
    | some tbl => if tbl ≠ tableName then some (col.tag, col.name, tbl)
                  else none
    | none => none)

namespace Database

/-- C3 source: Database.createDoltTable. Rejects an existing name, then
collects every column tag already used by another table and fails with the
joined tag-already-used error, otherwise installs the extended root. -/
def createDoltTable (s : Session) (tableName : Str) (root : RootVal)
    (sch : Sch) : Session × Except DbErr Unit :=
  if root.hasTable tableName then (s, .error (.tableAlreadyExists tableName))
  else
    let conflicting := conflictingTags root tableName sch
    if conflicting ≠ [] then (s, .error (.tagPrevUsed conflicting))
    else SetRoot s (root.createEmptyTable tableName sch)

/-- Embeds AutoIncrementTracker.AddNewTable through the global state: the
tracker learns the name (idempotently). -/
def aitAddNewTable (s : Session) (tableName : Str) : Session :=
  if s.aitNames.contains tableName then s
  else { s with aitNames := s.aitNames ++ [tableName] }

/-- Embeds Database.removeTableFromAutoIncrementTracker. The reconciliation
against the working sets of other branches is outside the verified sources;
the model simply forgets the name. -/
def removeTableFromAutoIncrementTracker (s : Session) (tableName : Str) :
    Session :=
  { s with aitNames := s.aitNames.filter (fun n => n != tableName) }

/-- Embeds Database.createSqlTable: working-set fetch, duplicate check,
spatial-key rejection, auto-increment registration, then createDoltTable.
The sqlutil.ToDoltSchema conversion is elided: the model works on dolt
schemas directly. -/
def createSqlTable (s : Session) (tableName : Str) (sch : Sch) :
    Session × Except DbErr Unit :=
  match GetWorkingSet s with
  | .error e => (s, .error e)
  | .ok ws =>
    let root := ws.workingRoot
    if root.hasTable tableName then
      (s, .error (.tableAlreadyExists tableName))
    else if sch.usesSpatialKey then (s, .error (.spatialKey tableName))
    else
      let s1 := if sch.hasAutoInc then aitAddNewTable s tableName else s
      createDoltTable s1 tableName root sch

/-- C2 source: Database.CreateTable. Write authorization, the dolt_docs
schema carve-out, the reserved-prefix rejection (full-text auxiliary tables
excepted), the name-validity check, then creation. -/
def CreateTable (s : Session) (tableName : Str) (sch : Sch) :
    Session × Except DbErr Unit :=
  if ! checkAccess s then (s, .error .authz)
  else
    let rest := fun (_ : Unit) =>
      if ! IsValidTableName tableName then
        (s, .error (.invalidTableName tableName))
      else createSqlTable s tableName sch
    if lowerStr tableName == docTableName then
      if ! (sch == doltDocsSchema) && ! (sch == oldDoltDocsSchema) then
        (s, .error .docsSchema)
      else rest ()
    else if HasDoltPrefix tableName && ! IsFullTextTable tableName then
      (s, .error (.reservedTableName tableName))
    else rest ()

/-- C10 source: Database.CreateTemporaryTable. No write-authorization check;
every dolt_-prefixed name is reserved; the new table lives only in the
session registry (NewTempTable is modelled as an empty snapshot). -/
def CreateTemporaryTable (s : Session) (tableName : Str) (sch : Sch) :
    Session × Except DbErr Unit :=
  if HasDoltPrefix tableName then (s, .error (.reservedTableName tableName))
  else if ! IsValidTableName tableName then
    (s, .error (.invalidTableName tableName))
  else (s.addTemporaryTable tableName (TableSnap.mk sch []), .ok ())

/-- Modelled from the spec: renaming inside the root value (the renameTable
helper of the sqle package is not among the sources under src/): the old
snapshot is re-keyed to the new name, a missing old table is
table-not-found. -/
def renameTableRoot (root : RootVal) (oldName newName : Str) :
    Except DbErr RootVal :=
  match root.getTable oldName with
  | none => .error (.tableNotFound oldName)
  | some t => .ok ⟨(root.removeTable oldName).tables ++ [(newName, t)]⟩

/-- C2 source: Database.RenameTable. Write authorization, root fetch,
non-alterable-system rejection of the old name, reserved-prefix rejection of
the new name, validity and existence checks, then the root rename. -/
def RenameTable (s : Session) (oldName newName : Str) :
    Session × Except DbErr Unit :=
  if ! checkAccess s then (s, .error .authz)
  else
    match GetRoot s with
    | .error e => (s, .error e)
    | .ok root =>
      if IsNonAlterableSystemTable oldName then
        (s, .error (.systemTableAlter oldName))
      else if HasDoltPrefix newName then
        (s, .error (.reservedTableName newName))
      else if ! IsValidTableName newName then
        (s, .error (.invalidTableName newName))
      else
        match GetTableInsensitive s newName with
        | .ok (some _) => (s, .error (.tableAlreadyExists newName))
        | _ =>
          match renameTableRoot root oldName newName with
          | .error e => (s, .error e)
          | .ok newRoot => SetRoot s newRoot

/-- Embeds Database.dropTable (the lower-case helper without policy checks):
temporary tables first, then removal from the working root with
auto-increment reconciliation for auto-increment schemas. -/
def dropTable (s : Session) (tableName : Str) : Session × Except DbErr Unit :=
  match s.getTemporaryTable tableName with
  | some _ => (s.dropTemporaryTable tableName, .ok ())
  | none =>
    match GetWorkingSet s with
    | .error e => (s, .error e)
    | .ok ws =>
      let root := ws.workingRoot
      match root.getTable tableName with
      | none => (s, .error (.tableNotFound tableName))
      | some tbl =>
        let newRoot := root.removeTable tableName
        let s1 := if tbl.sch.hasAutoInc then
            removeTableFromAutoIncrementTracker s tableName
          else s
        SetRoot s1 newRoot

/-- C2 source: Database.DropTable. Write authorization then the
non-alterable-system rejection, then the unchecked drop. -/
def DropTable (s : Session) (tableName : Str) : Session × Except DbErr Unit :=
  if ! checkAccess s then (s, .error .authz)
  else if IsNonAlterableSystemTable tableName then
    (s, .error (.systemTableAlter tableName))
  else dropTable s tableName

end Database

/-- Modelled from the spec: the on-disk schema of the dolt_schemas table
(section 4.G); the schema constants live outside the sources under src/. The
tags are drawn from the reserved system range. -/
def schemasTableSch : Sch :=
  { cols := [⟨9000, "type".toList⟩, ⟨9001, "name".toList⟩,
             ⟨9002, "fragment".toList⟩, ⟨9003, "extra".toList⟩,
             ⟨9004, "sql_mode".toList⟩],
    pkTags := [9000, 9001], hasAutoInc := false, usesSpatialKey := false }

/-- Embeds the row layout of a schema fragment: (type, name, fragment, extra,
sql_mode); the extra cell holds the created-at seconds, abstracting the JSON
encoding. -/
def fragRow (fragType name definition : Str) (created : Int)
    (sqlMode : Str) : Row :=
  [.s fragType, .s name, .s definition, .i created, .s sqlMode]

/-- Embeds the (type, name) match of fragFromSchemasTable, case-insensitive
on the fragment name as the spec requires for the uniqueness key. -/
def fragMatches (fragType name : Str) (row : Row) : Bool :=
  match row with
  | .s t :: .s n :: _ => t == fragType && lowerStr n == lowerStr name
  | _ => false

/-- Modelled from the spec: fragFromSchemasTable (not among the sources under
src/) finds the row of the fragment keyed (type, name). -/
def fragFromSchemasTable (t : TableSnap) (fragType name : Str) : Option Row :=
  t.rows.find? (fragMatches fragType name)

namespace Database

/-- Modelled from the spec: getOrCreateDoltSchemasTable (not among the
sources under src/) returns the dolt_schemas table, creating it empty in the
working root when it does not exist yet. -/
def getOrCreateDoltSchemasTable (s : Session) :
    Session × Except DbErr TableSnap :=
  match GetRoot s with
  | .error e => (s, .error e)
  | .ok root =>
    match root.getTableInsensitive schemasTableName with
    | some (_, t) => (s, .ok t)
    | none =>
      match SetRoot s (root.createEmptyTable schemasTableName
          schemasTableSch) with
      | (s1, .error e) => (s1, .error e)
      | (s1, .ok _) => (s1, .ok (TableSnap.mk schemasTableSch []))

/-- C4 source: Database.addFragToSchemasTable. Write authorization, table
materialization, duplicate check against the caller-supplied existing error,
then insertion of the new fragment row through the session root. -/
def addFragToSchemasTable (s : Session) (fragType name definition : Str)
    (created : Int) (existingErr : DbErr) : Session × Except DbErr Unit :=
  if ! checkAccess s then (s, .error .authz)
  else
    match getOrCreateDoltSchemasTable s with
    | (s1, .error e) => (s1, .error e)
    | (s1, .ok tbl) =>
      match fragFromSchemasTable tbl fragType name with
      | some _ => (s1, .error existingErr)
      | none =>
        match GetRoot s1 with
        | .error e => (s1, .error e)
        | .ok root =>
          let sqlMode := "NO_ENGINE_SUBSTITUTION".toList
          let newTbl := { tbl with
            rows := tbl.rows ++ [fragRow fragType name definition created
              sqlMode] }
          SetRoot s1 (root.putTable schemasTableName newTbl)

/-- C4 source: Database.dropTableIfEmpty. Drops the named table when it
exists and holds no rows. -/
def dropTableIfEmpty (s : Session) (tableName : Str) :
    Session × Except DbErr Unit :=
  match GetTableInsensitive s tableName with
  | .error e => (s, .error e)
  | .ok none => (s, .ok ())
  | .ok (some (.writableDoltTable _ tbl)) =>
    if tbl.rows.length == 0 then dropTable s tableName else (s, .ok ())
  | .ok (some _) => (s, .error .castPanic)

/-- C4 source: Database.dropFragFromSchemasTable. Write authorization, table
and row lookup against the caller-supplied missing error, row deletion, and
finally dropTableIfEmpty so that dropping the last fragment also drops the
dolt_schemas table. -/
def dropFragFromSchemasTable (s : Session) (fragType name : Str)
    (missingErr : DbErr) : Session × Except DbErr Unit :=
  if ! checkAccess s then (s, .error .authz)
  else
    match GetTableInsensitive s schemasTableName with
    | .error e => (s, .error e)
    | .ok none => (s, .error missingErr)
    | .ok (some (.writableDoltTable exactName tbl)) =>
      match fragFromSchemasTable tbl fragType name with
      | none => (s, .error missingErr)
      | some row =>
        match GetRoot s with
        | .error e => (s, .error e)
        | .ok root =>
          let newTbl := { tbl with rows := tbl.rows.erase row }
          match SetRoot s (root.putTable exactName newTbl) with
          | (s1, .error e) => (s1, .error e)
          | (s1, .ok _) => dropTableIfEmpty s1 schemasTableName
    | .ok (some _) => (s, .error .castPanic)

/-- Embeds Database.CreateView: a view fragment added under the
existing-view error. -/
def CreateView (s : Session) (name createViewStmt : Str) :
    Session × Except DbErr Unit :=
  addFragToSchemasTable s ("view".toList) name createViewStmt 0
    (.existingView name)

/-- Embeds Database.DropView: a view fragment dropped under the
view-not-found error. -/
def DropView (s : Session) (name : Str) : Session × Except DbErr Unit :=
  dropFragFromSchemasTable s ("view".toList) name (.viewNotFound name)

/-- Embeds Database.CreateTrigger. -/
def CreateTrigger (s : Session) (name createStmt : Str) (created : Int) :
    Session × Except DbErr Unit :=
  addFragToSchemasTable s ("trigger".toList) name createStmt created
    (.existingTrigger name)

/-- Embeds Database.DropTrigger. -/
def DropTrigger (s : Session) (name : Str) : Session × Except DbErr Unit :=
  dropFragFromSchemasTable s ("trigger".toList) name (.triggerNotFound name)

end Database

/-- Embeds the commits yielded by the topological iterator of resolveAsOfTime,
in the order the iterator produces them: commit metadata time paired with the
root value of the commit. -/
structure WalkCommit where
  time : Int
  root : RootVal
deriving DecidableEq

/-- C5 source: resolveAsOfTime. Walks the commits in topological order from
HEAD and returns the first whose metadata time equals the requested time or
lies before it, paired with its root value; when the iterator is exhausted it
returns nothing rather than an error. -/
def resolveAsOfTime (cms : List WalkCommit) (asOf : Int) :
    Except DbErr (Option (WalkCommit × RootVal)) :=
  match cms with
  | [] => .ok none
  | curr :: rest =>
    if curr.time == asOf || curr.time < asOf then .ok (some (curr, curr.root))
    else resolveAsOfTime rest asOf

/-- C5: for every as-of resolution with timestamp t, the returned commit is
the first commit in the topological walk whose meta time is less than or equal
to t (equality included), returned together with its root value; when no
commit in the walk satisfies this, the resolution returns nothing, not an
error. -/
theorem resolveAsOfTime_first_le (cms : List WalkCommit) (t : Int) :
    resolveAsOfTime cms t =
      .ok ((cms.find? (fun c => decide (c.time ≤ t))).map
        (fun c => (c, c.root))) := by
  induction cms with
  | nil => rfl
  | cons curr rest ih =>
    by_cases h : curr.time ≤ t
    · have hcond : (curr.time == t || decide (curr.time < t)) = true := by
        simp only [Bool.or_eq_true, beq_iff_eq, decide_eq_true_eq]
        omega
      simp [resolveAsOfTime, List.find?, hcond, h]
    · have hcond : (curr.time == t || decide (curr.time < t)) = false := by
        simp only [Bool.or_eq_false_iff, beq_eq_false_iff_ne, ne_eq,
          decide_eq_false_iff_not]
        omega
      simp [resolveAsOfTime, List.find?, hcond, h, ih]

/-- The SQL values that can appear as index-range keys in a commit-diff
lookup: commit-ref strings or some non-string value. -/
inductive Value where
  | str (v : Str)
  | other
deriving DecidableEq

/-- Embeds the sql.RangeCut shapes of the engine: closed cuts above or below
a key, plus the unbounded and null cuts. -/
inductive RangeCut where
  | above (key : Value)
  | below (key : Value)
  | aboveAll
  | aboveNull
  | belowNull
deriving DecidableEq

/-- Embeds one column of a sql.Range. -/
structure ColumnRange where
  lowerBound : RangeCut
  upperBound : RangeCut
deriving DecidableEq

/-- Embeds sql.IndexLookup: the ranges pushed down by the engine, one inner
list per (to_commit, from_commit) column pair. -/
structure IndexLookup where
  ranges : List (List ColumnRange)
deriving DecidableEq

/-- Embeds sql.GetRangeCutKey: the key of a closed cut. -/
def getRangeCutKey (c : RangeCut) : Option Value :=
  match c with
  | .above key => some key
  | .below key => some key
  | _ => none

/-- A resolvable commit of the commit-diff environment: metadata time plus
root value. -/
structure CommitInfo where
  time : Int
  root : RootVal
deriving DecidableEq

/-- Embeds the DoltDB handle as far as commit-diff resolution needs it: the
mapping from commit-spec strings to commits. -/
structure DoltDB where
  commits : List (Str × CommitInfo)
deriving DecidableEq

/-- Embeds NewCommitSpec plus DoltDB.Resolve: a commit-spec string resolves
to its commit, or fails. -/
def DoltDB.resolve (ddb : DoltDB) (s : Str) : Option CommitInfo :=
  (ddb.commits.find? (fun p => p.1 == s)).map Prod.snd

/-- The error kinds of commit_diff_table.go. -/
inductive DiffErrKind where
  | exactlyOneToCommit
  | exactlyOneFromCommit
  | invalidCommitDiffArgs
  | toCommitNotString
  | fromCommitNotString
  | refNotFound (s : Str)
deriving DecidableEq

/-- An error of the commit-diff table: either the bare error value or the
fmt.Errorf wrapping that prepends the error-querying-table context. -/
inductive DiffErr where
  | base (k : DiffErrKind)
  | wrapped (tableName : Str) (k : DiffErrKind)
deriving DecidableEq

/-- Embeds errors.Is on the three sentinel errors: the kind carried by the
error, through any wrapping. -/
def DiffErr.is (e : DiffErr) (k : DiffErrKind) : Bool :=
  match e with
  | .base k2 => k2 == k
  | .wrapped _ k2 => k2 == k

/-- Embeds dtables.CommitDiffTable: the base-table name and the session
working root captured at construction. -/
structure CommitDiffTable where
  name : Str
  workingRoot : RootVal
deriving DecidableEq

/-- Embeds CommitDiffTable.Name: the dolt_commit_diff_ prefix plus the base
name. -/
def CommitDiffTable.fullName (dt : CommitDiffTable) : Str :=
  "dolt_commit_diff_".toList ++ dt.name

/-- Embeds dtables.DiffPartition as far as commit-diff partitions use it. -/
structure DiffPartition where
  toTable : Option TableSnap
  fromTable : Option TableSnap
  toName : Str
  fromName : Str
  toDate : Option Int
  fromDate : Option Int
deriving DecidableEq

/-- Modelled from the spec: DiffPartition.isDiffablePartition (in
diff_table.go, not among the sources under src/) reports false exactly when
the primary key changed between the from table and the to table. -/
def isDiffablePartition (dp : DiffPartition) : Bool :=
  match dp.fromTable, dp.toTable with
  | some f, some t => f.sch.pkTags == t.sch.pkTags
  | _, _ => true

/-- Embeds dtables.SliceOfPartitionsItr: the partition slice plus the cursor
(the mutex only guards the cursor). -/
structure SliceOfPartitionsItr where
  partitions : List DiffPartition
  i : Nat
deriving DecidableEq

/-- Embeds NewSliceOfPartitionsItr. -/
def NewSliceOfPartitionsItr (ps : List DiffPartition) : SliceOfPartitionsItr :=
  ⟨ps, 0⟩

/-- The outcome of one SliceOfPartitionsItr.Next call: io.EOF or the next
partition together with the advanced iterator. -/
inductive IterStep where
  | eof
  | part (p : DiffPartition) (rest : SliceOfPartitionsItr)
deriving DecidableEq

/-- C7 source: SliceOfPartitionsItr.Next. -/
def SliceOfPartitionsItr.next (itr : SliceOfPartitionsItr) : IterStep :=
  if h : itr.i < itr.partitions.length then
    .part itr.partitions[itr.i] ⟨itr.partitions, itr.i + 1⟩
  else .eof

/-- Embeds the session warning list of the sql context: ctx.Warn prepends a
(code, message) pair. -/
structure SqlCtx where
  warnings : List (Nat × Str)
deriving DecidableEq

/-- Embeds ctx.Warn. -/
def SqlCtx.warn (ctx : SqlCtx) (code : Nat) (msg : Str) : SqlCtx :=
  ⟨(code, msg) :: ctx.warnings⟩

/-- Modelled from the spec: the well-known warning code emitted on a
primary-key change (PrimaryKeyChangeWarningCode in diff_table.go, not among
the sources under src/). -/
def PrimaryKeyChangeWarningCode : Nat := 1105

/-- Modelled from the spec: the warning message template applied to the from
and to names. -/
def primaryKeyChangeWarningMsg (fromName toName : Str) : Str :=
  "cannot render full diff between commits ".toList ++ fromName ++
    " and ".toList ++ toName ++ " due to primary key set change".toList

/-- C1 source: CommitDiffTable.Partitions. With no index lookup at all, the
call fails with the exactly-one-to-commit error wrapped in the
error-querying-table context. -/
def CommitDiffTable.Partitions (dt : CommitDiffTable) :
    Except DiffErr (List DiffPartition) :=
  .error (.wrapped dt.fullName .exactlyOneToCommit)

/-- C1 source: CommitDiffTable.rootValForHash. The working pseudo-commit
resolves to the captured working root with no commit time; other specs
resolve through the DoltDB. -/
def CommitDiffTable.rootValForHash (dt : CommitDiffTable) (ddb : DoltDB)
    (hashStr : Str) : Except DiffErr (RootVal × Str × Option Int) :=
  if lowerStr hashStr == "working".toList then
    .ok (dt.workingRoot, hashStr, none)
  else
    match ddb.resolve hashStr with
    | none => .error (.base (.refNotFound hashStr))
    | some cm => .ok (cm.root, hashStr, some cm.time)

/-- C1 and C7 source: CommitDiffTable.LookupPartitions. Exactly one range of
two columns is required; each column requires a closed upper bound (Above or
Below) whose key converts to a string; the two commits are resolved (the
working pseudo-commit to the session working root), the partition is built,
and a primary-key change degrades to a warning plus an empty iterator. -/
def CommitDiffTable.LookupPartitions (dt : CommitDiffTable) (ddb : DoltDB)
    (ctx : SqlCtx) (i : IndexLookup) :
    SqlCtx × Except DiffErr SliceOfPartitionsItr :=
  match i.ranges with
  | [[toR, fromR]] =>
    match getRangeCutKey toR.upperBound with
    | none => (ctx, .error (.base .invalidCommitDiffArgs))
    | some toKey =>
      match getRangeCutKey fromR.upperBound with
      | none => (ctx, .error (.base .invalidCommitDiffArgs))
      | some fromKey =>
        match toKey with
        | .other => (ctx, .error (.base .toCommitNotString))
        | .str toCommit =>
          match fromKey with
          | .other => (ctx, .error (.base .fromCommitNotString))
          | .str fromCommit =>
            match dt.rootValForHash ddb toCommit with
            | .error e => (ctx, .error e)
            | .ok (toRoot, toHash, toDate) =>
              match dt.rootValForHash ddb fromCommit with
              | .error e => (ctx, .error e)
              | .ok (fromRoot, fromHash, fromDate) =>
                let toTable :=
                  (toRoot.getTableInsensitive dt.name).map Prod.snd
                let fromTable :=
                  (fromRoot.getTableInsensitive dt.name).map Prod.snd
                let dp : DiffPartition :=
                  ⟨toTable, fromTable, toHash, fromHash, toDate, fromDate⟩
                if ! isDiffablePartition dp then
                  (ctx.warn PrimaryKeyChangeWarningCode
                     (primaryKeyChangeWarningMsg dp.fromName dp.toName),
                   .ok (NewSliceOfPartitionsItr []))
                else (ctx, .ok (NewSliceOfPartitionsItr [dp]))
  | _ => (ctx, .error (.base .invalidCommitDiffArgs))

/-- Embeds the decimal rendering of fmt.Sprintf for the candidate index of
CreateFulltextTableNames. -/
def decimalDigits (n : Nat) : Str :=
  if n < 10 then [Char.ofNat (48 + n)]
  else decimalDigits (n / 10) ++ [Char.ofNat (48 + n % 10)]
termination_by n
decreasing_by
  exact Nat.div_lt_self (by omega) (by omega)

/-- Length bound used for termination of the prefix search: a number at
least 10 to the k renders with more than k digits. -/
theorem decimalDigits_length_gt (k : Nat) :
    ∀ n : Nat, 10 ^ k ≤ n → k < (decimalDigits n).length := by
  induction k with
  | zero =>
    intro n _
    unfold decimalDigits
    split <;> simp
  | succ k ih =>
    intro n hn
    have hpow : 10 ≤ 10 ^ (k + 1) := by
      calc 10 = 10 ^ 1 := (pow_one 10).symm
      _ ≤ 10 ^ (k + 1) := Nat.pow_le_pow_right (by omega) (by omega)
    have h10 : ¬ n < 10 := by omega
    unfold decimalDigits
    rw [if_neg h10]
    have hdiv : 10 ^ k ≤ n / 10 := by
      rw [Nat.le_div_iff_mul_le (by omega)]
      calc 10 ^ k * 10 = 10 ^ (k + 1) := by ring
      _ ≤ n := hn
    have := ih (n / 10) hdiv
    simp only [List.length_append, List.length_cons, List.length_nil]
    omega

/-- C9 source: the candidate prefix of iteration i of
CreateFulltextTableNames, the lowered dolt_ parent-table _ parent-index _ i
string. -/
def fulltextTablePre (parentTable parentIndex : Str) (i : Nat) : Str :=
  lowerStr ("dolt_".toList ++ parentTable ++ "_".toList ++ parentIndex ++
    "_".toList ++ decimalDigits i)

/-- C9 source: the inner loop of CreateFulltextTableNames succeeds for
candidate p when no existing table name, lowered, has p as a prefix. -/
def noTableHasPre (allNames : List Str) (p : Str) : Bool :=
  ! allNames.any (fun nm => p.isPrefixOf (lowerStr nm))

/-- The largest length of an existing table name. -/
def maxNameLen (allNames : List Str) : Nat :=
  allNames.foldr (fun nm acc => max nm.length acc) 0

/-- Helper for termination of the candidate search: every name is bounded by
maxNameLen. -/
theorem length_le_maxNameLen (allNames : List Str) (nm : Str)
    (h : nm ∈ allNames) : nm.length ≤ maxNameLen allNames := by
  induction allNames with
  | nil => cases h
  | cons a l ih =>
    rcases List.mem_cons.mp h with h | h
    · simp [maxNameLen, h]
    · have := ih h
      simp only [maxNameLen, List.foldr_cons] at *
      omega

/-- The candidate search of CreateFulltextTableNames terminates: some index
yields a prefix longer than every existing name, hence a prefix of none. -/
theorem exists_free_fulltext_index (allNames : List Str)
    (parentTable parentIndex : Str) :
    ∃ i : Nat,
      noTableHasPre allNames (fulltextTablePre parentTable parentIndex i)
        = true := by
  refine ⟨10 ^ maxNameLen allNames, ?_⟩
  simp only [noTableHasPre, Bool.not_eq_true', List.any_eq_false]
  intro nm hnm
  simp only [Bool.not_eq_true]
  by_contra hpre
  simp only [Bool.not_eq_false] at hpre
  have hlen := List.IsPrefix.length_le (List.isPrefixOf_iff_prefix.mp hpre)
  have hdig := decimalDigits_length_gt (maxNameLen allNames)
    (10 ^ maxNameLen allNames) (le_refl _)
  have hnm2 := length_le_maxNameLen allNames nm hnm
  simp only [fulltextTablePre, lowerStr, List.length_map,
    List.length_append] at hlen
  omega

/-- C9 source: the outer loop of CreateFulltextTableNames, the least
candidate index whose prefix is free. -/
def chosenFulltextIndex (allNames : List Str)
    (parentTable parentIndex : Str) : Nat :=
  Nat.find (exists_free_fulltext_index allNames parentTable parentIndex)

/-- Embeds fulltext.IndexTableNames. -/
structure IndexTableNames where
  config : Str
  position : Str
  docCount : Str
  globalCount : Str
  rowCount : Str
deriving DecidableEq

/-- C9 source: Database.CreateFulltextTableNames, applied to the table names
returned by GetAllTableNames. The five derived names: the config name from
the raw parent-table name, the other four from the free lowered prefix. -/
def CreateFulltextTableNames (allNames : List Str)
    (parentTable parentIndex : Str) : IndexTableNames :=
  let tablePre := fulltextTablePre parentTable parentIndex
    (chosenFulltextIndex allNames parentTable parentIndex)
  { config := "dolt_".toList ++ parentTable ++ "_fts_config".toList,
    position := tablePre ++ "_fts_position".toList,
    docCount := tablePre ++ "_fts_doc_count".toList,
    globalCount := tablePre ++ "_fts_global_count".toList,
    rowCount := tablePre ++ "_fts_row_count".toList }

/-- Helper: a name with a dolt_-prefixed prefix is itself dolt_-prefixed. -/
theorem hasDoltPre_of_isPrefixOf (p l : Str) (hd : HasDoltPrefix p = true)
    (hp : p.isPrefixOf l = true) : HasDoltPrefix l = true := by
  simp only [HasDoltPrefix, List.isPrefixOf_iff_prefix] at *
  exact List.IsPrefix.trans hd hp

/-- C8: for every session whose database state has no working set (detached
head), GetWorkingSet returns the dedicated detached-head error rather than a
working set; for every session with a working set it returns that working
set without error. -/
theorem getWorkingSet_detached_behavior (s : Session) (st : DbState)
    (hdb : s.dbState = some st) :
    (st.workingSet = none →
      Database.GetWorkingSet s = .error .detachedHead) ∧
    (∀ ws, st.workingSet = some ws → Database.GetWorkingSet s = .ok ws) := by
  constructor
  · intro h
    simp [Database.GetWorkingSet, hdb, h]
  · intro ws h
    simp [Database.GetWorkingSet, hdb, h]

/-- C8 witness: a concrete detached-head session is rejected with the
detached-head error, and a concrete attached session yields its working
set. -/
theorem getWorkingSet_detached_behavior_witness :
    Database.GetWorkingSet ⟨some ⟨none, ⟨[]⟩⟩, [], true, []⟩ =
      .error .detachedHead ∧
    Database.GetWorkingSet ⟨some ⟨some ⟨⟨[]⟩⟩, ⟨[]⟩⟩, [], true, []⟩ =
      .ok ⟨⟨[]⟩⟩ :=
  ⟨(getWorkingSet_detached_behavior ⟨some ⟨none, ⟨[]⟩⟩, [], true, []⟩
      ⟨none, ⟨[]⟩⟩ rfl).1 rfl,
   (getWorkingSet_detached_behavior ⟨some ⟨some ⟨⟨[]⟩⟩, ⟨[]⟩⟩, [], true, []⟩
      ⟨some ⟨⟨[]⟩⟩, ⟨[]⟩⟩ rfl).2 ⟨⟨[]⟩⟩ rfl⟩

/-- C10: CreateTemporaryTable never changes the session database state (the
working root lives there), its outcome is independent of the write
authorization flag, and a session without write authorization exists for
which CreateTemporaryTable succeeds while CreateTable fails with the
authorization error. -/
theorem createTemporaryTable_frame :
    (∀ (s : Session) (name : Str) (sch : Sch),
      ((Database.CreateTemporaryTable s name sch).1).dbState = s.dbState) ∧
    (∀ (s : Session) (name : Str) (sch : Sch) (b : Bool),
      Database.CreateTemporaryTable { s with writeAllowed := b } name sch =
        ({ (Database.CreateTemporaryTable s name sch).1 with
            writeAllowed := b },
         (Database.CreateTemporaryTable s name sch).2)) ∧
    (∃ (s : Session) (name : Str) (sch : Sch),
      checkAccess s = false ∧
      (Database.CreateTemporaryTable s name sch).2 = .ok () ∧
      (Database.CreateTable s name sch).2 = .error .authz) := by
  refine ⟨?_, ?_, ?_⟩
  · intro s name sch
    unfold Database.CreateTemporaryTable
    split
    · rfl
    · split
      · rfl
      · rfl
  · intro s name sch b
    unfold Database.CreateTemporaryTable
    split
    · rfl
    · split
      · rfl
      · rfl
  · exact ⟨⟨some ⟨some ⟨⟨[]⟩⟩, ⟨[]⟩⟩, [], false, []⟩, "x".toList,
      ⟨[], [], false, false⟩, by decide, by rfl, by rfl⟩

/-- C9: the index chosen by CreateFulltextTableNames is the least natural
number whose lowered dolt_ parent _ index _ n prefix is, case-insensitively,
a prefix of no existing table name, and the five returned names are exactly
the four prefix-derived names plus the dolt_ parent _fts_config name. -/
theorem createFulltextTableNames_least_free (allNames : List Str)
    (parentTable parentIndex : Str) :
    noTableHasPre allNames (fulltextTablePre parentTable parentIndex
      (chosenFulltextIndex allNames parentTable parentIndex)) = true ∧
    (∀ m, m < chosenFulltextIndex allNames parentTable parentIndex →
      noTableHasPre allNames (fulltextTablePre parentTable parentIndex m)
        = false) ∧
    CreateFulltextTableNames allNames parentTable parentIndex =
      { config := "dolt_".toList ++ parentTable ++ "_fts_config".toList,
        position := fulltextTablePre parentTable parentIndex
          (chosenFulltextIndex allNames parentTable parentIndex) ++
            "_fts_position".toList,
        docCount := fulltextTablePre parentTable parentIndex
          (chosenFulltextIndex allNames parentTable parentIndex) ++
            "_fts_doc_count".toList,
        globalCount := fulltextTablePre parentTable parentIndex
          (chosenFulltextIndex allNames parentTable parentIndex) ++
            "_fts_global_count".toList,
        rowCount := fulltextTablePre parentTable parentIndex
          (chosenFulltextIndex allNames parentTable parentIndex) ++
            "_fts_row_count".toList } := by
  refine ⟨Nat.find_spec (exists_free_fulltext_index allNames parentTable
    parentIndex), fun m hm => ?_, rfl⟩
  have := Nat.find_min (exists_free_fulltext_index allNames parentTable
    parentIndex) hm
  simpa using this

/-- C9 witness: the theorem applied to a concrete name environment. -/
theorem createFulltextTableNames_least_free_witness :
    noTableHasPre ["vals".toList] (fulltextTablePre "vals".toList
      "idx".toList (chosenFulltextIndex ["vals".toList] "vals".toList
        "idx".toList)) = true ∧
    (∀ m, m < chosenFulltextIndex ["vals".toList] "vals".toList
        "idx".toList →
      noTableHasPre ["vals".toList] (fulltextTablePre "vals".toList
        "idx".toList m) = false) ∧
    CreateFulltextTableNames ["vals".toList] "vals".toList "idx".toList =
      { config := "dolt_".toList ++ "vals".toList ++ "_fts_config".toList,
        position := fulltextTablePre "vals".toList "idx".toList
          (chosenFulltextIndex ["vals".toList] "vals".toList "idx".toList) ++
            "_fts_position".toList,
        docCount := fulltextTablePre "vals".toList "idx".toList
          (chosenFulltextIndex ["vals".toList] "vals".toList "idx".toList) ++
            "_fts_doc_count".toList,
        globalCount := fulltextTablePre "vals".toList "idx".toList
          (chosenFulltextIndex ["vals".toList] "vals".toList "idx".toList) ++
            "_fts_global_count".toList,
        rowCount := fulltextTablePre "vals".toList "idx".toList
          (chosenFulltextIndex ["vals".toList] "vals".toList "idx".toList) ++
            "_fts_row_count".toList } :=
  createFulltextTableNames_least_free ["vals".toList] "vals".toList
    "idx".toList

/-- A fixture session with write authorization, an attached empty working
root, no temporary tables and an empty tracker. -/
def sess0 : Session := ⟨some ⟨some ⟨⟨[]⟩⟩, ⟨[]⟩⟩, [], true, []⟩

/-- The database state of sess0. -/
def st0 : DbState := ⟨some ⟨⟨[]⟩⟩, ⟨[]⟩⟩

/-- C6: for every session holding a temporary table under a name, the
resolution of GetTableInsensitive returns that temporary table before the
working root is even consulted; without such a temporary table the resolution
is exactly the reflective-then-root dispatch, and for a name outside the
dolt_ namespace it is exactly the persisted-table lookup in the working
root. -/
theorem getTableInsensitive_temp_first (s : Session) (st : DbState)
    (name : Str) (hdb : s.dbState = some st) :
    (∀ t, s.getTemporaryTable name = some t →
      Database.GetTableInsensitive s name = .ok (some (.temp name t))) ∧
    (s.getTemporaryTable name = none →
      Database.GetTableInsensitive s name =
        Database.getTableInsensitiveInner st.workingRoot name) ∧
    (s.getTemporaryTable name = none →
      HasDoltPrefix (lowerStr name) = false →
      Database.GetTableInsensitive s name =
        .ok (Database.getTable st.workingRoot name)) := by
  refine ⟨?_, ?_, ?_⟩
  · intro t ht
    simp [Database.GetTableInsensitive, ht]
  · intro ht
    simp [Database.GetTableInsensitive, ht, Database.GetRoot, hdb]
  · intro ht hdolt
    have h1 : ¬ ("dolt_diff_".toList <+: lowerStr name) := by
      intro hc
      rw [hasDoltPre_of_isPrefixOf _ _ (by decide)
        (List.isPrefixOf_iff_prefix.mpr hc)] at hdolt
      simp at hdolt
    have h2 : ¬ ("dolt_commit_diff_".toList <+: lowerStr name) := by
      intro hc
      rw [hasDoltPre_of_isPrefixOf _ _ (by decide)
        (List.isPrefixOf_iff_prefix.mpr hc)] at hdolt
      simp at hdolt
    have h3 : ¬ ("dolt_history_".toList <+: lowerStr name) := by
      intro hc
      rw [hasDoltPre_of_isPrefixOf _ _ (by decide)
        (List.isPrefixOf_iff_prefix.mpr hc)] at hdolt
      simp at hdolt
    have h4 : ¬ ("dolt_conflicts_".toList <+: lowerStr name) := by
      intro hc
      rw [hasDoltPre_of_isPrefixOf _ _ (by decide)
        (List.isPrefixOf_iff_prefix.mpr hc)] at hdolt
      simp at hdolt
    have h5 : ¬ ("dolt_constraint_violations_".toList <+:
        lowerStr name) := by
      intro hc
      rw [hasDoltPre_of_isPrefixOf _ _ (by decide)
        (List.isPrefixOf_iff_prefix.mpr hc)] at hdolt
      simp at hdolt
    have h6 : ¬ (lowerStr name ∈ exactReflectiveNames) := by
      intro hmem
      have hall : ∀ x ∈ exactReflectiveNames, HasDoltPrefix x = true := by
        decide
      rw [hall _ hmem] at hdolt
      simp at hdolt
    simp only [Database.GetTableInsensitive, ht, Database.GetRoot, hdb]
    rw [Database.getTableInsensitiveInner.eq_def]
    simp at h1 h2 h3 h4 h5
    simp [h1, h2, h3, h4, h5, h6]

/-- C6 witness: a session with a temporary table named x resolves x to it
although a persisted x exists; the same session without the temporary table
resolves x through the root lookup. -/
theorem getTableInsensitive_temp_first_witness :
    Database.GetTableInsensitive
      ⟨some ⟨some ⟨⟨[("x".toList, ⟨⟨[], [], false, false⟩, []⟩)]⟩⟩, ⟨[]⟩⟩,
       [("x".toList, ⟨⟨[⟨7, "c".toList⟩], [], false, false⟩, []⟩)], true, []⟩
      "x".toList =
      .ok (some (.temp "x".toList
        ⟨⟨[⟨7, "c".toList⟩], [], false, false⟩, []⟩)) ∧
    Database.GetTableInsensitive
      ⟨some ⟨some ⟨⟨[("x".toList, ⟨⟨[], [], false, false⟩, []⟩)]⟩⟩, ⟨[]⟩⟩,
       [], true, []⟩ "x".toList =
      .ok (Database.getTable ⟨[("x".toList, ⟨⟨[], [], false, false⟩, []⟩)]⟩
        "x".toList) :=
  ⟨(getTableInsensitive_temp_first
      ⟨some ⟨some ⟨⟨[("x".toList, ⟨⟨[], [], false, false⟩, []⟩)]⟩⟩, ⟨[]⟩⟩,
       [("x".toList, ⟨⟨[⟨7, "c".toList⟩], [], false, false⟩, []⟩)], true, []⟩
      ⟨some ⟨⟨[("x".toList, ⟨⟨[], [], false, false⟩, []⟩)]⟩⟩, ⟨[]⟩⟩
      "x".toList rfl).1 _ (by rfl),
   (getTableInsensitive_temp_first
      ⟨some ⟨some ⟨⟨[("x".toList, ⟨⟨[], [], false, false⟩, []⟩)]⟩⟩, ⟨[]⟩⟩,
       [], true, []⟩
      ⟨some ⟨⟨[("x".toList, ⟨⟨[], [], false, false⟩, []⟩)]⟩⟩, ⟨[]⟩⟩
      "x".toList rfl).2.2 (by rfl) (by decide)⟩

/-- C2 (amended): for every dolt_-prefixed name outside the full-text
auxiliary set, in an authorized session with database state: CreateTable
fails with reserved-table-name unless the name is the dolt_docs carve-out;
CreateTemporaryTable fails with reserved-table-name; RenameTable fails with
reserved-table-name for such a new name when the old name is not a
non-alterable system table, and with system-table-alter whenever the old
name is one; DropTable fails with system-table-alter for non-alterable
system tables. -/
theorem reservedNameDdl (s : Session) (st : DbState) (name : Str) (sch : Sch)
    (hacc : checkAccess s = true) (hdb : s.dbState = some st)
    (hpre : HasDoltPrefix name = true)
    (hft : IsFullTextTable name = false) :
    ((lowerStr name == docTableName) = false →
      Database.CreateTable s name sch =
        (s, .error (.reservedTableName name))) ∧
    Database.CreateTemporaryTable s name sch =
      (s, .error (.reservedTableName name)) ∧
    (∀ old, IsNonAlterableSystemTable old = false →
      Database.RenameTable s old name =
        (s, .error (.reservedTableName name))) ∧
    (∀ old newName, IsNonAlterableSystemTable old = true →
      Database.RenameTable s old newName =
        (s, .error (.systemTableAlter old))) ∧
    (IsNonAlterableSystemTable name = true →
      Database.DropTable s name = (s, .error (.systemTableAlter name))) := by
  refine ⟨?_, ?_, ?_, ?_, ?_⟩
  · intro hdoc
    simp [Database.CreateTable, hacc, hdoc, hpre, hft]
  · simp [Database.CreateTemporaryTable, hpre]
  · intro old hold
    simp [Database.RenameTable, hacc, Database.GetRoot, hdb, hold, hpre]
  · intro old newName hold
    simp [Database.RenameTable, hacc, Database.GetRoot, hdb, hold]
  · intro hna
    simp [Database.DropTable, hacc, hna]

/-- C2 witness: the theorem applied to the reserved name dolt_foo in the
fixture session, plus a system-table rename and drop. -/
theorem reservedNameDdl_witness :
    Database.CreateTable sess0 "dolt_foo".toList ⟨[], [], false, false⟩ =
      (sess0, .error (.reservedTableName "dolt_foo".toList)) ∧
    Database.CreateTemporaryTable sess0 "dolt_foo".toList
      ⟨[], [], false, false⟩ =
      (sess0, .error (.reservedTableName "dolt_foo".toList)) ∧
    Database.RenameTable sess0 "vals".toList "dolt_foo".toList =
      (sess0, .error (.reservedTableName "dolt_foo".toList)) ∧
    Database.RenameTable sess0 "dolt_log".toList "y".toList =
      (sess0, .error (.systemTableAlter "dolt_log".toList)) ∧
    Database.DropTable sess0 "dolt_schemas".toList =
      (sess0, .error (.systemTableAlter "dolt_schemas".toList)) := by
  have h := reservedNameDdl sess0 st0 "dolt_foo".toList
    ⟨[], [], false, false⟩ (by decide) rfl (by decide) (by decide)
  have h2 := reservedNameDdl sess0 st0 "dolt_schemas".toList
    ⟨[], [], false, false⟩ (by decide) rfl (by decide) (by decide)
  exact ⟨h.1 (by decide), h.2.1, h.2.2.1 "vals".toList (by decide),
    h.2.2.2.1 "dolt_log".toList "y".toList (by decide),
    h2.2.2.2.2 (by decide)⟩

/-- C2 counterexample: dolt_docs is dolt_-prefixed and outside the full-text
auxiliary set, yet CreateTable does not return the reserved-table-name
error for it: the docs schema check answers instead. -/
theorem reservedNameDdl_docs_counterexample :
    HasDoltPrefix docTableName = true ∧
    IsFullTextTable docTableName = false ∧
    Database.CreateTable sess0 docTableName ⟨[], [], false, false⟩ =
      (sess0, .error .docsSchema) ∧
    DbErr.docsSchema ≠ DbErr.reservedTableName docTableName :=
  ⟨by decide, by decide, by rfl, by decide⟩

/-- C3 invariant: column tags are unique across all tables of a database: a
tag carried by columns of two table entries forces the entries to bear the
same name. -/
def RootVal.uniqueTags (r : RootVal) : Prop :=
  ∀ p1 ∈ r.tables, ∀ p2 ∈ r.tables, ∀ c1 ∈ p1.2.sch.cols,
    ∀ c2 ∈ p2.2.sch.cols, c1.tag = c2.tag → p1.1 = p2.1

/-- C3: in the creation of a fresh table, a schema column whose tag is
already owned by a different table forces the tag-already-used error whose
payload lists exactly the offending tags, one entry per offending column,
and the session (hence the root) is left unchanged; when no tag conflicts,
creation preserves the database-wide uniqueness of column tags. -/
theorem createDoltTable_tag_unique (s : Session) (tableName : Str)
    (root : RootVal) (sch : Sch)
    (hnew : root.hasTable tableName = false) :
    ((∃ col ∈ sch.cols, ∃ tbl, root.getTableByColTag col.tag = some tbl ∧
        tbl ≠ tableName) →
      Database.createDoltTable s tableName root sch =
        (s, .error (.tagPrevUsed (conflictingTags root tableName sch)))) ∧
    (∀ col ∈ sch.cols, ∀ tbl, root.getTableByColTag col.tag = some tbl →
      tbl ≠ tableName →
      (col.tag, col.name, tbl) ∈ conflictingTags root tableName sch) ∧
    (∀ e ∈ conflictingTags root tableName sch, ∃ col ∈ sch.cols, ∃ tbl,
      root.getTableByColTag col.tag = some tbl ∧ tbl ≠ tableName ∧
      e = (col.tag, col.name, tbl)) ∧
    (root.uniqueTags → conflictingTags root tableName sch = [] →
      (root.createEmptyTable tableName sch).uniqueTags) := by
  refine ⟨?_, ?_, ?_, ?_⟩
  · rintro ⟨col, hcol, tbl, htbl, hne⟩
    have hmem : (col.tag, col.name, tbl) ∈ conflictingTags root tableName
        sch :=
      List.mem_filterMap.mpr ⟨col, hcol, by simp [htbl, hne]⟩
    have hne2 : conflictingTags root tableName sch ≠ [] := by
      intro h0
      rw [h0] at hmem
      exact absurd hmem (List.not_mem_nil _)
    simp [Database.createDoltTable, hnew, hne2]
  · intro col hcol tbl htbl hne
    exact List.mem_filterMap.mpr ⟨col, hcol, by simp [htbl, hne]⟩
  · intro e he
    obtain ⟨col, hcol, hf⟩ := List.mem_filterMap.mp he
    rcases hgt : root.getTableByColTag col.tag with _ | tbl
    · simp [hgt] at hf
    · by_cases hne : tbl = tableName
      · simp [hgt, hne] at hf
      · refine ⟨col, hcol, tbl, hgt, hne, ?_⟩
        simp only [hgt] at hf
        rw [if_pos hne] at hf
        exact (Option.some_inj.mp hf).symm
  · intro hu hempty
    have hnone : ∀ col ∈ sch.cols, root.getTableByColTag col.tag = none := by
      intro col hcol
      rcases hgt : root.getTableByColTag col.tag with _ | tbl
      · rfl
      · exfalso
        by_cases hne : tbl = tableName
        · obtain ⟨p, hfind, hp1⟩ := Option.map_eq_some'.mp hgt
          have hpmem := List.mem_of_find?_eq_some hfind
          have : root.hasTable tableName = true := by
            simp only [RootVal.hasTable, List.any_eq_true]
            exact ⟨p, hpmem, by simp [hp1, hne]⟩
          rw [this] at hnew
          cases hnew
        · have hmem : (col.tag, col.name, tbl) ∈ conflictingTags root
              tableName sch :=
            List.mem_filterMap.mpr ⟨col, hcol, by simp [hgt, hne]⟩
          rw [hempty] at hmem
          exact absurd hmem (List.not_mem_nil _)
    intro p1 hp1 p2 hp2 c1 hc1 c2 hc2 htag
    simp only [RootVal.createEmptyTable] at hp1 hp2
    rcases List.mem_append.mp hp1 with hp1o | hp1n
    · rcases List.mem_append.mp hp2 with hp2o | hp2n
      · exact hu p1 hp1o p2 hp2o c1 hc1 c2 hc2 htag
      · exfalso
        have hp2e := List.mem_singleton.mp hp2n
        subst hp2e
        have hc2s : c2 ∈ sch.cols := hc2
        have := hnone c2 hc2s
        simp only [RootVal.getTableByColTag, Option.map_eq_none',
          List.find?_eq_none] at this
        exact absurd (by
          simp only [List.any_eq_true]
          exact ⟨c1, hc1, by simp [htag]⟩) (this p1 hp1o)
    · rcases List.mem_append.mp hp2 with hp2o | hp2n
      · exfalso
        have hp1e := List.mem_singleton.mp hp1n
        subst hp1e
        have hc1s : c1 ∈ sch.cols := hc1
        have := hnone c1 hc1s
        simp only [RootVal.getTableByColTag, Option.map_eq_none',
          List.find?_eq_none] at this
        exact absurd (by
          simp only [List.any_eq_true]
          exact ⟨c2, hc2, by simp [htag]⟩) (this p2 hp2o)
      · have hp1e := List.mem_singleton.mp hp1n
        have hp2e := List.mem_singleton.mp hp2n
        rw [hp1e, hp2e]

/-- C3 witness: reusing tag 5 of table a in the fresh table b fails with the
tag-already-used error listing the offending tag, leaving the session
unchanged. -/
theorem createDoltTable_tag_unique_witness :
    Database.createDoltTable sess0 "b".toList
      ⟨[("a".toList, ⟨⟨[⟨5, "k".toList⟩], [], false, false⟩, []⟩)]⟩
      ⟨[⟨5, "c".toList⟩], [], false, false⟩ =
      (sess0, .error (.tagPrevUsed (conflictingTags
        ⟨[("a".toList, ⟨⟨[⟨5, "k".toList⟩], [], false, false⟩, []⟩)]⟩
        "b".toList ⟨[⟨5, "c".toList⟩], [], false, false⟩))) :=
  (createDoltTable_tag_unique sess0 "b".toList
      ⟨[("a".toList, ⟨⟨[⟨5, "k".toList⟩], [], false, false⟩, []⟩)]⟩
      ⟨[⟨5, "c".toList⟩], [], false, false⟩ (by decide)).1
    ⟨⟨5, "c".toList⟩, by decide, "a".toList, by rfl, by decide⟩

/-- Helper: the only errors surfaced by rootValForHash are ref-not-found
conditions. -/
theorem rootValForHash_error (dt : CommitDiffTable) (ddb : DoltDB)
    (hashStr : Str) (e : DiffErr)
    (he : dt.rootValForHash ddb hashStr = .error e) :
    ∃ s2, e = .base (.refNotFound s2) := by
  unfold CommitDiffTable.rootValForHash at he
  split at he
  · cases he
  · split at he
    · injection he with h
      exact ⟨hashStr, h.symm⟩
    · cases he

/-- C1 (amended): with no index lookup at all the partition call fails with
the exactly-one-to-commit error; the exactly-one-from-commit error is never
produced by a lookup (in particular a lookup binding only to_commit, leaving
the from_commit upper bound unbounded, fails with invalid-commit-diff-args
instead); and a lookup succeeds only when it consists of exactly one range
over the two commit columns whose upper bounds are closed on string keys. -/
theorem commitDiff_requires_bound_commits (dt : CommitDiffTable)
    (ddb : DoltDB) (ctx : SqlCtx) (i : IndexLookup) :
    dt.Partitions = .error (.wrapped dt.fullName .exactlyOneToCommit) ∧
    DiffErr.is (.wrapped dt.fullName .exactlyOneToCommit)
      .exactlyOneToCommit = true ∧
    (∀ ctx2 e, dt.LookupPartitions ddb ctx i = (ctx2, .error e) →
      e.is .exactlyOneFromCommit = false) ∧
    (∀ toR fromR, i.ranges = [[toR, fromR]] →
      getRangeCutKey fromR.upperBound = none →
      dt.LookupPartitions ddb ctx i =
        (ctx, .error (.base .invalidCommitDiffArgs))) ∧
    (∀ ctx2 itr, dt.LookupPartitions ddb ctx i = (ctx2, .ok itr) →
      ∃ toR fromR toCommit fromCommit, i.ranges = [[toR, fromR]] ∧
        getRangeCutKey toR.upperBound = some (.str toCommit) ∧
        getRangeCutKey fromR.upperBound = some (.str fromCommit)) := by
  refine ⟨rfl, by simp [DiffErr.is], ?_, ?_, ?_⟩
  · intro ctx2 e he
    unfold CommitDiffTable.LookupPartitions at he
    split at he
    · split at he
      · injection he with h1 h2
        injection h2 with h2
        simp [h2.symm, DiffErr.is]
      · split at he
        · injection he with h1 h2
          injection h2 with h2
          simp [h2.symm, DiffErr.is]
        · split at he
          · injection he with h1 h2
            injection h2 with h2
            simp [h2.symm, DiffErr.is]
          · split at he
            · injection he with h1 h2
              injection h2 with h2
              simp [h2.symm, DiffErr.is]
            · split at he
              · rename_i heq
                injection he with h1 h2
                injection h2 with h2
                obtain ⟨s2, hs2⟩ := rootValForHash_error _ _ _ _ heq
                simp [h2.symm, hs2, DiffErr.is]
              · split at he
                · rename_i heq
                  injection he with h1 h2
                  injection h2 with h2
                  obtain ⟨s2, hs2⟩ := rootValForHash_error _ _ _ _ heq
                  simp [h2.symm, hs2, DiffErr.is]
                · dsimp only at he
                  split at he
                  · exact absurd he (by simp)
                  · exact absurd he (by simp)
    · injection he with h1 h2
      injection h2 with h2
      simp [h2.symm, DiffErr.is]
  · intro toR fromR hr hkey
    unfold CommitDiffTable.LookupPartitions
    rw [hr]
    rcases hto : getRangeCutKey toR.upperBound with _ | toKey
    · simp [hto]
    · simp [hto, hkey]
  · intro ctx2 itr he
    unfold CommitDiffTable.LookupPartitions at he
    split at he
    · rename_i toR fromR heqr
      split at he
      · exact absurd he (by simp)
      · rename_i toKey hto
        split at he
        · exact absurd he (by simp)
        · rename_i fromKey hfrom
          split at he
          · exact absurd he (by simp)
          · rename_i toCommit
            split at he
            · exact absurd he (by simp)
            · rename_i fromCommit
              split at he
              · exact absurd he (by simp)
              · split at he
                · exact absurd he (by simp)
                · exact ⟨toR, fromR, toCommit, fromCommit, heqr, hto, hfrom⟩
    · exact absurd he (by simp)

/-- C1 counterexample: the lookup of a query binding only to_commit (the
from_commit column range left unbounded above) fails with
invalid-commit-diff-args, not with the exactly-one-from-commit error, which
no code path of the table produces. -/
theorem commitDiff_only_to_counterexample :
    (CommitDiffTable.LookupPartitions ⟨"vals".toList, ⟨[]⟩⟩
      ⟨[("HEAD".toList, ⟨0, ⟨[]⟩⟩)]⟩ ⟨[]⟩
      ⟨[[⟨.below (.str "HEAD".toList), .above (.str "HEAD".toList)⟩,
         ⟨.belowNull, .aboveAll⟩]]⟩) =
      (⟨[]⟩, .error (.base .invalidCommitDiffArgs)) ∧
    DiffErr.is (.base .invalidCommitDiffArgs) .exactlyOneFromCommit
      = false ∧
    DiffErr.is (.base .invalidCommitDiffArgs) .invalidCommitDiffArgs
      = true :=
  ⟨by rfl, by decide, by decide⟩

/-- C1 witness: the amended theorem applied to the concrete
only-to_commit lookup. -/
theorem commitDiff_requires_bound_commits_witness :
    CommitDiffTable.Partitions ⟨"vals".toList, ⟨[]⟩⟩ =
      .error (.wrapped (CommitDiffTable.fullName ⟨"vals".toList, ⟨[]⟩⟩)
        .exactlyOneToCommit) ∧
    (CommitDiffTable.LookupPartitions ⟨"vals".toList, ⟨[]⟩⟩
      ⟨[("HEAD".toList, ⟨0, ⟨[]⟩⟩)]⟩ ⟨[]⟩
      ⟨[[⟨.below (.str "HEAD".toList), .above (.str "HEAD".toList)⟩,
         ⟨.belowNull, .aboveAll⟩]]⟩) =
      (⟨[]⟩, .error (.base .invalidCommitDiffArgs)) := by
  have h := commitDiff_requires_bound_commits ⟨"vals".toList, ⟨[]⟩⟩
    ⟨[("HEAD".toList, ⟨0, ⟨[]⟩⟩)]⟩ ⟨[]⟩
    ⟨[[⟨.below (.str "HEAD".toList), .above (.str "HEAD".toList)⟩,
       ⟨.belowNull, .aboveAll⟩]]⟩
  exact ⟨h.1, h.2.2.2.1
    ⟨.below (.str "HEAD".toList), .above (.str "HEAD".toList)⟩
    ⟨.belowNull, .aboveAll⟩ rfl rfl⟩

/-- C7: a commit-diff partition lookup whose shape and commits are accepted
but whose primary key changed between the from and to commits does not fail:
it pushes exactly one warning with the well-known primary-key-change code and
message onto the session and returns a partition iterator that yields zero
partitions. -/
theorem lookupPartitions_pk_change_warns (dt : CommitDiffTable)
    (ddb : DoltDB) (ctx : SqlCtx) (toR fromR : ColumnRange)
    (toCommit fromCommit : Str) (toRoot fromRoot : RootVal)
    (toDate fromDate : Option Int)
    (hto : getRangeCutKey toR.upperBound = some (.str toCommit))
    (hfrom : getRangeCutKey fromR.upperBound = some (.str fromCommit))
    (hres1 : dt.rootValForHash ddb toCommit = .ok (toRoot, toCommit, toDate))
    (hres2 : dt.rootValForHash ddb fromCommit =
      .ok (fromRoot, fromCommit, fromDate))
    (hpk : isDiffablePartition
      ⟨(toRoot.getTableInsensitive dt.name).map Prod.snd,
       (fromRoot.getTableInsensitive dt.name).map Prod.snd,
       toCommit, fromCommit, toDate, fromDate⟩ = false) :
    dt.LookupPartitions ddb ctx ⟨[[toR, fromR]]⟩ =
      (ctx.warn PrimaryKeyChangeWarningCode
        (primaryKeyChangeWarningMsg fromCommit toCommit),
       .ok (NewSliceOfPartitionsItr [])) ∧
    (NewSliceOfPartitionsItr []).next = .eof := by
  constructor
  · unfold CommitDiffTable.LookupPartitions
    simp only [hto, hfrom, hres1, hres2, hpk]
    rfl
  · rfl

/-- C7 witness: two concrete commits whose table t changed its primary key:
the lookup returns the warning and the empty iterator, whose first Next call
is EOF. -/
theorem lookupPartitions_pk_change_warns_witness :
    CommitDiffTable.LookupPartitions ⟨"t".toList, ⟨[]⟩⟩
      ⟨[("c1".toList, ⟨1, ⟨[("t".toList,
          ⟨⟨[], [1], false, false⟩, []⟩)]⟩⟩),
        ("c2".toList, ⟨2, ⟨[("t".toList,
          ⟨⟨[], [2], false, false⟩, []⟩)]⟩⟩)]⟩ ⟨[]⟩
      ⟨[[⟨.below (.str "c1".toList), .above (.str "c1".toList)⟩,
         ⟨.below (.str "c2".toList), .above (.str "c2".toList)⟩]]⟩ =
      (SqlCtx.warn ⟨[]⟩ PrimaryKeyChangeWarningCode
        (primaryKeyChangeWarningMsg "c2".toList "c1".toList),
       .ok (NewSliceOfPartitionsItr [])) ∧
    (NewSliceOfPartitionsItr []).next = .eof :=
  lookupPartitions_pk_change_warns ⟨"t".toList, ⟨[]⟩⟩
    ⟨[("c1".toList, ⟨1, ⟨[("t".toList, ⟨⟨[], [1], false, false⟩, []⟩)]⟩⟩),
      ("c2".toList, ⟨2, ⟨[("t".toList,
        ⟨⟨[], [2], false, false⟩, []⟩)]⟩⟩)]⟩ ⟨[]⟩
    ⟨.below (.str "c1".toList), .above (.str "c1".toList)⟩
    ⟨.below (.str "c2".toList), .above (.str "c2".toList)⟩
    "c1".toList "c2".toList
    ⟨[("t".toList, ⟨⟨[], [1], false, false⟩, []⟩)]⟩
    ⟨[("t".toList, ⟨⟨[], [2], false, false⟩, []⟩)]⟩
    (some 1) (some 2) rfl rfl (by rfl) (by rfl) (by rfl)

/-- Helper: writing through a table appended to a root that had no entry of
that name (case-insensitively) replaces exactly the appended entry. -/
theorem putTable_append_fresh (root : RootVal) (name : Str)
    (t t2 : TableSnap) (h : root.getTableInsensitive name = none) :
    RootVal.putTable ⟨root.tables ++ [(name, t)]⟩ name t2 =
      ⟨root.tables ++ [(name, t2)]⟩ := by
  simp only [RootVal.putTable, List.map_append]
  have h1 : root.tables.map
      (fun p => if p.1 == name then (p.1, t2) else p) = root.tables := by
    conv_rhs => rw [← List.map_id root.tables]
    apply List.map_congr_left
    intro p hp
    have hnb := List.find?_eq_none.mp h p hp
    have hne : (p.1 == name) = false := by
      by_contra hc
      simp only [Bool.not_eq_false] at hc
      rw [eq_of_beq hc] at hnb
      simp at hnb
    simp [hne]
  rw [h1]
  simp

/-- Helper: removing a table appended to a root that had no entry of that
name (case-insensitively) restores the original root. -/
theorem removeTable_append_fresh (root : RootVal) (name : Str)
    (t : TableSnap) (h : root.getTableInsensitive name = none) :
    RootVal.removeTable ⟨root.tables ++ [(name, t)]⟩ name = root := by
  simp only [RootVal.removeTable, List.filter_append]
  have h1 : root.tables.filter (fun p => p.1 != name) = root.tables := by
    apply List.filter_eq_self.mpr
    intro p hp
    have hnb := List.find?_eq_none.mp h p hp
    by_contra hc
    simp only [bne, Bool.not_eq_true, Bool.not_eq_false'] at hc
    rw [eq_of_beq hc] at hnb
    simp at hnb
  rw [h1]
  simp

/-- Helper: the case-insensitive lookup of a table appended to a root that
had no entry of that name finds exactly the appended entry. -/
theorem getTableInsensitive_append_self (root : RootVal) (name : Str)
    (t : TableSnap) (h : root.getTableInsensitive name = none) :
    RootVal.getTableInsensitive ⟨root.tables ++ [(name, t)]⟩ name =
      some (name, t) := by
  simp only [RootVal.getTableInsensitive] at *
  rw [List.find?_append, h]
  simp

/-- Helper: the exact-name lookup of a table appended to a root that had no
entry of that name finds exactly the appended entry. -/
theorem getTable_append_self (root : RootVal) (name : Str) (t : TableSnap)
    (h : root.getTableInsensitive name = none) :
    RootVal.getTable ⟨root.tables ++ [(name, t)]⟩ name = some t := by
  simp only [RootVal.getTable, RootVal.getTableInsensitive] at *
  rw [List.find?_append]
  have h1 : root.tables.find? (fun p => p.1 == name) = none := by
    rw [List.find?_eq_none]
    intro p hp hc
    have hnb := List.find?_eq_none.mp h p hp
    rw [eq_of_beq hc] at hnb
    simp at hnb
  rw [h1]
  simp

/-- Helper: the reflective dispatch passes the dolt_schemas name through to
the plain user-table lookup. -/
theorem inner_schemas_eval (root : RootVal) :
    Database.getTableInsensitiveInner root schemasTableName =
      .ok (Database.getTable root schemasTableName) := by
  have h1 : ¬ ("dolt_diff_".toList <+: lowerStr schemasTableName) := by
    decide
  have h2 : ¬ ("dolt_commit_diff_".toList <+:
      lowerStr schemasTableName) := by decide
  have h3 : ¬ ("dolt_history_".toList <+: lowerStr schemasTableName) := by
    decide
  have h4 : ¬ ("dolt_conflicts_".toList <+: lowerStr schemasTableName) := by
    decide
  have h5 : ¬ ("dolt_constraint_violations_".toList <+:
      lowerStr schemasTableName) := by decide
  have h6 : ¬ (lowerStr schemasTableName ∈ exactReflectiveNames) := by
    decide
  rw [Database.getTableInsensitiveInner.eq_def]
  simp at h1 h2 h3 h4 h5 h6
  simp [h1, h2, h3, h4, h5, h6]

/-- Helper for C4: in a session whose working root is a fresh append of the
dolt_schemas table, GetTableInsensitive resolves dolt_schemas to the
writable wrapper of the appended snapshot. -/
theorem getTableInsensitive_schemas_fresh (s2 : Session) (st2 : DbState)
    (root : RootVal) (tbl : TableSnap)
    (hdb2 : s2.dbState = some st2)
    (hwr2 : st2.workingRoot = ⟨root.tables ++ [(schemasTableName, tbl)]⟩)
    (hroot : root.getTableInsensitive schemasTableName = none)
    (htmp2 : s2.getTemporaryTable schemasTableName = none) :
    Database.GetTableInsensitive s2 schemasTableName =
      .ok (some (.writableDoltTable schemasTableName tbl)) := by
  have hro : IsReadOnlySystemTable schemasTableName = false := by decide
  have hwp : (HasDoltPrefix schemasTableName &&
      ! IsFullTextTable schemasTableName) = true := by decide
  simp only [Database.GetTableInsensitive, htmp2, Database.GetRoot, hdb2]
  rw [inner_schemas_eval]
  simp only [Database.getTable, hwr2,
    getTableInsensitive_append_self _ _ _ hroot, hro, hwp]
  simp

/-- Helper: two sessions agreeing on all four fields are equal. -/
theorem Session.ext2 (x y : Session) (h1 : x.dbState = y.dbState)
    (h2 : x.tempTables = y.tempTables)
    (h3 : x.writeAllowed = y.writeAllowed)
    (h4 : x.aitNames = y.aitNames) : x = y := by
  cases x
  cases y
  simp_all

/-- Helper for C4: adding any schema fragment to a database without a
dolt_schemas table and then dropping it returns the session to exactly its
original state. -/
theorem fragRoundtrip (s : Session) (st : DbState) (ws : WorkingSet)
    (fragType fname definition : Str) (created : Int) (e1 e2 : DbErr)
    (hdb : s.dbState = some st) (hws : st.workingSet = some ws)
    (hacc : checkAccess s = true)
    (hroot : ws.workingRoot.getTableInsensitive schemasTableName = none)
    (htmp : s.getTemporaryTable schemasTableName = none) :
    ∃ s1 : Session,
      Database.addFragToSchemasTable s fragType fname definition created e1
        = (s1, .ok ()) ∧
      Database.dropFragFromSchemasTable s1 fragType fname e2
        = (s, .ok ()) := by
  have hwr : st.workingRoot = ws.workingRoot := by
    simp [DbState.workingRoot, hws]
  have hacc2 : (! checkAccess s) = false := by rw [hacc]; rfl
  set row : Row := fragRow fragType fname definition created
    "NO_ENGINE_SUBSTITUTION".toList with hrow
  set tbl1 : TableSnap := ⟨schemasTableSch, [row]⟩ with htbl1
  set root2 : RootVal :=
    ⟨ws.workingRoot.tables ++ [(schemasTableName, tbl1)]⟩ with hroot2
  set s1 : Session :=
    { s with dbState := some ⟨some ⟨root2⟩, st.headRoot⟩ } with hs1
  refine ⟨s1, ?_, ?_⟩
  · have hgoc : Database.getOrCreateDoltSchemasTable s =
        ({ s with dbState := some ⟨some ⟨⟨ws.workingRoot.tables ++
            [(schemasTableName, ⟨schemasTableSch, []⟩)]⟩⟩, st.headRoot⟩ },
         .ok ⟨schemasTableSch, []⟩) := by
      simp only [Database.getOrCreateDoltSchemasTable, Database.GetRoot,
        hdb, hwr, hroot, Database.SetRoot, hws, RootVal.createEmptyTable]
    rw [Database.addFragToSchemasTable, hacc2]
    simp only [Bool.false_eq_true, if_false, hgoc]
    rw [fragFromSchemasTable.eq_def]
    simp only [List.find?_nil]
    simp only [Database.GetRoot, DbState.workingRoot, Database.SetRoot]
    rw [putTable_append_fresh _ _ _ _ hroot]
    simp [hs1, hroot2, htbl1, hrow]
  · have hdb1 : s1.dbState = some ⟨some ⟨root2⟩, st.headRoot⟩ := rfl
    have htmp1 : s1.getTemporaryTable schemasTableName = none := htmp
    have hacc1 : (! checkAccess s1) = false := hacc2
    have hget1 := getTableInsensitive_schemas_fresh s1
      ⟨some ⟨root2⟩, st.headRoot⟩ ws.workingRoot tbl1 hdb1 rfl hroot htmp1
    have hfind : fragFromSchemasTable tbl1 fragType fname = some row := by
      rw [htbl1, fragFromSchemasTable.eq_def]
      simp [hrow, fragRow, fragMatches]
    have herase : tbl1.rows.erase row = [] := by
      rw [htbl1]
      exact List.erase_cons_head row []
    set s2 : Session :=
      { s1 with dbState := some ⟨some ⟨⟨ws.workingRoot.tables ++
        [(schemasTableName, ⟨schemasTableSch, []⟩)]⟩⟩, st.headRoot⟩ }
      with hs2
    have hstep1 : Database.dropFragFromSchemasTable s1 fragType fname e2 =
        Database.dropTableIfEmpty s2 schemasTableName := by
      rw [Database.dropFragFromSchemasTable, hacc1]
      simp only [Bool.false_eq_true, if_false, hget1, hfind]
      simp only [Database.GetRoot, hdb1, DbState.workingRoot, herase]
      rw [hroot2, putTable_append_fresh _ _ _ _ hroot]
      simp only [Database.SetRoot, hdb1, hs2]
    have hdb2 : s2.dbState = some ⟨some ⟨⟨ws.workingRoot.tables ++
        [(schemasTableName, ⟨schemasTableSch, []⟩)]⟩⟩, st.headRoot⟩ := rfl
    have htmp2 : s2.getTemporaryTable schemasTableName = none := htmp
    have hget2 := getTableInsensitive_schemas_fresh s2
      ⟨some ⟨⟨ws.workingRoot.tables ++ [(schemasTableName,
        ⟨schemasTableSch, []⟩)]⟩⟩, st.headRoot⟩
      ws.workingRoot ⟨schemasTableSch, []⟩ hdb2 (by rfl) hroot htmp2
    rw [hstep1]
    rw [Database.dropTableIfEmpty, hget2]
    rw [Database.dropTable, htmp2]
    simp only [Database.GetWorkingSet, hdb2, DbState.workingRoot]
    rw [getTable_append_self _ _ _ hroot]
    rw [removeTable_append_fresh _ _ _ hroot]
    simp only [Database.SetRoot, hdb2]
    have h1 : (⟨some ⟨ws.workingRoot⟩, st.headRoot⟩ : DbState) = st := by
      rw [show (⟨ws.workingRoot⟩ : WorkingSet) = ws from rfl, ← hws]
    simp only [List.length_nil, Nat.zero_eq, beq_self_eq_true, if_true,
      schemasTableSch, Bool.false_eq_true, if_false]
    congr 1
    apply Session.ext2 <;> simp [hs1, hs2, h1, hdb]

/-- C4: for a database with no views or triggers (no dolt_schemas table in
the working root, none shadowed by a temporary table), creating a view or a
trigger and then dropping it restores the session exactly, so the set of
table names equals the set before the creation: dropping the last schema
fragment also drops the then-empty dolt_schemas table. -/
theorem viewRoundtrip_restores_tables (s : Session) (st : DbState)
    (ws : WorkingSet) (vname stmt : Str)
    (hdb : s.dbState = some st) (hws : st.workingSet = some ws)
    (hacc : checkAccess s = true)
    (hroot : ws.workingRoot.getTableInsensitive schemasTableName = none)
    (htmp : s.getTemporaryTable schemasTableName = none) :
    (∃ s1 : Session,
      Database.CreateView s vname stmt = (s1, .ok ()) ∧
      Database.DropView s1 vname = (s, .ok ())) ∧
    (∃ s2 : Session,
      Database.CreateTrigger s vname stmt 0 = (s2, .ok ()) ∧
      Database.DropTrigger s2 vname = (s, .ok ())) ∧
    (∀ s1 : Session, Database.CreateView s vname stmt = (s1, .ok ()) →
      ((Database.DropView s1 vname).1.dbState.map
        (fun st2 => st2.workingRoot.tableNames)) =
        some (ws.workingRoot.tableNames)) := by
  have hwr : st.workingRoot = ws.workingRoot := by
    simp [DbState.workingRoot, hws]
  obtain ⟨s1, h1, h2⟩ := fragRoundtrip s st ws ("view".toList) vname stmt 0
    (.existingView vname) (.viewNotFound vname) hdb hws hacc hroot htmp
  obtain ⟨s2, h3, h4⟩ := fragRoundtrip s st ws ("trigger".toList) vname stmt
    0 (.existingTrigger vname) (.triggerNotFound vname) hdb hws hacc hroot
    htmp
  refine ⟨⟨s1, h1, h2⟩, ⟨s2, h3, h4⟩, ?_⟩
  intro s1x h1x
  rw [Database.CreateView, h1] at h1x
  have hs1x : s1 = s1x := congrArg Prod.fst h1x
  rw [Database.DropView, ← hs1x, h2]
  simp only [hdb, hwr, Option.map_some']

/-- C4 witness: the round trip applied to the fixture session with no
dolt_schemas table. -/
theorem viewRoundtrip_restores_tables_witness :
    (∃ s1 : Session,
      Database.CreateView sess0 "v".toList "SELECT 1".toList =
        (s1, .ok ()) ∧
      Database.DropView s1 "v".toList = (sess0, .ok ())) ∧
    (∃ s2 : Session,
      Database.CreateTrigger sess0 "v".toList "SELECT 1".toList 0 =
        (s2, .ok ()) ∧
      Database.DropTrigger s2 "v".toList = (sess0, .ok ())) ∧
    (∀ s1 : Session,
      Database.CreateView sess0 "v".toList "SELECT 1".toList =
        (s1, .ok ()) →
      ((Database.DropView s1 "v".toList).1.dbState.map
        (fun st2 => st2.workingRoot.tableNames)) =
        some (RootVal.tableNames ⟨[]⟩)) :=
  viewRoundtrip_restores_tables sess0 st0 ⟨⟨[]⟩⟩ "v".toList
    "SELECT 1".toList rfl rfl (by decide) (by rfl) (by rfl)

end Dolt
